import Mathlib

/-!
Shallow embedding of the QtPropertySerializer repository
(QtPropertySerializer.h/.cpp and QtObjectPropertySerializer.h).

Modelling conventions:
* QVariant documents are the inductive type QVariant below: primitives,
  maps and lists.  QVariantMap (QMap of QString to QVariant) is modelled
  as a key-sorted association list, because QMap is a sorted container
  whose iteration from constBegin to constEnd visits keys in ascending
  order; the subscript assignment data[key] = value is mapInsert.
* QObject is the structure Node: a class name (metaObject className), an
  objectName, the static meta-property schema with readable/writable
  flags and a declared type, the stored static property values, the
  dynamic properties (insertion ordered, as dynamicPropertyNames), and
  the ordered list of children.
* QVariant type conversion performed by setProperty is an external
  collaborator of the algorithm; it is modelled by canAssign, which
  accepts like-typed primitives and everything for variant-typed
  properties.  QString null and QString empty are identified as "".
* QObject-pointer-valued QVariants (the canConvert branches of
  addMappedData) are not representable in a document and are outside
  the model; addMappedData models the folding branch executed for all
  plain values.
-/

namespace QtPS

inductive Prim where
  | pnull
  | pint (n : Int)
  | pstr (s : String)
  | pbool (b : Bool)
deriving DecidableEq, Repr

inductive QVariant where
  | prim (p : Prim)
  | vmap (entries : List (String × QVariant))
  | vlist (items : List QVariant)
deriving Repr

/-- QMap.contains. -/
def mapContains (m : List (String × QVariant)) (k : String) : Bool :=
  m.any (fun e => e.1 == k)

/-- QMap.value as an Option. -/
def mapLookup (m : List (String × QVariant)) (k : String) : Option QVariant :=
  (m.find? (fun e => e.1 == k)).map (fun e => e.2)

/-- QString::operator<, the key order of QMap: lexicographic comparison
of the character sequences (code-point order, agreeing with QChar
order on the characters concerned). -/
def charsLt : List Char → List Char → Bool
  | [], [] => false
  | [], _ :: _ => true
  | _ :: _, [] => false
  | c :: cs, d :: ds =>
    if c.toNat < d.toNat then true
    else if d.toNat < c.toNat then false
    else charsLt cs ds

def qstringLt (a b : String) : Bool :=
  charsLt a.data b.data

/-- QMap subscript assignment: insert keeping keys in ascending order,
replacing an existing binding. -/
def mapInsert : List (String × QVariant) → String → QVariant → List (String × QVariant)
  | [], k, v => [(k, v)]
  | (k', v') :: rest, k, v =>
    if qstringLt k k' then (k, v) :: (k', v') :: rest
    else if k == k' then (k, v) :: rest
    else (k', v') :: mapInsert rest k v

/-- The declared type of a static meta-property.  Conversion between
primitive kinds is abstracted: a variant-typed property accepts any
value, other kinds accept a like-typed primitive. -/
inductive VType where
  | tvariant
  | tint
  | tstr
  | tbool
deriving DecidableEq, Repr

def canAssign : VType → QVariant → Bool
  | .tvariant, _ => true
  | .tint, .prim (.pint _) => true
  | .tstr, .prim (.pstr _) => true
  | .tbool, .prim (.pbool _) => true
  | _, _ => false

structure PropSpec where
  name : String
  readable : Bool
  writable : Bool
  ptype : VType
deriving DecidableEq, Repr

/-- A QObject.  objectName is the built-in first meta-property of
QObject (readable and writable, QString typed) and is kept as a field;
staticProps lists the remaining meta-properties in declaration order. -/
structure Node where
  className : String
  objectName : String
  staticProps : List PropSpec
  staticValues : List (String × QVariant)
  dynamicProps : List (String × QVariant)
  children : List Node

/-- object->property(name) for a static property (QVariant() when the
value was never stored). -/
def getStaticValue (node : Node) (name : String) : QVariant :=
  ((node.staticValues.find? (fun e => e.1 == name)).map (fun e => e.2)).getD (.prim .pnull)

/-- Update an association list binding in place, appending when absent
(dynamic properties keep their position in dynamicPropertyNames when
re-set). -/
def setAssoc : List (String × QVariant) → String → QVariant → List (String × QVariant)
  | [], name, v => [(name, v)]
  | e :: rest, name, v =>
    if e.1 == name then (name, v) :: rest else e :: setAssoc rest name v

/-- QVariant::toString, also used when converting a value assigned to
objectName: primitives convert, maps and lists do not. -/
def primToQString? : QVariant → Option String
  | .prim .pnull => some ""
  | .prim (.pint n) => some (toString n)
  | .prim (.pstr s) => some s
  | .prim (.pbool b) => some (if b then "true" else "false")
  | _ => none

def variantToString (v : QVariant) : String :=
  (primToQString? v).getD ""

/-- QObject::setProperty.  Writing objectName converts to QString;
writing a declared static property requires writability and an
assignable value and otherwise has no effect (the entry is dropped);
any other name becomes or updates a dynamic property. -/
def setProperty (node : Node) (name : String) (v : QVariant) : Node :=
  if name == "objectName" then
    match primToQString? v with
    | some s => { node with objectName := s }
    | none => node
  else
    match node.staticProps.find? (fun p => p.name == name) with
    | some p =>
      if p.writable && canAssign p.ptype v then
        { node with staticValues := setAssoc node.staticValues name v }
      else node
    | none => { node with dynamicProps := setAssoc node.dynamicProps name v }

/-- object->property(name): objectName field, then static properties
(readable ones), then dynamic properties; QVariant() otherwise. -/
def readProperty (node : Node) (name : String) : QVariant :=
  if name == "objectName" then .prim (.pstr node.objectName)
  else
    match node.staticProps.find? (fun p => p.name == name) with
    | some p => if p.readable then getStaticValue node name else .prim .pnull
    | none => ((node.dynamicProps.find? (fun e => e.1 == name)).map (fun e => e.2)).getD (.prim .pnull)

/-- QtPropertySerializer::addMappedData, plain-value branch: insert bare
when the key is absent, append when the existing value is a list, and
otherwise collapse the two values into a list. -/
def addMappedData (data : List (String × QVariant)) (key : String) (value : QVariant) : List (String × QVariant) :=
  if mapContains data key then
    match mapLookup data key with
    | some (.vlist values) => mapInsert data key (.vlist (values ++ [value]))
    | some existing => mapInsert data key (.vlist [existing, value])
    | none => mapInsert data key value
  else mapInsert data key value

/-- Fold the property part of serialize: the built-in objectName
property first (readable and writable, hence always emitted), then the
static meta-properties in declaration order, then the dynamic
properties in insertion order. -/
def serializeProps (node : Node) (includeReadOnly : Bool) : List (String × QVariant) :=
  let data := addMappedData [] "objectName" (.prim (.pstr node.objectName))
  let data := node.staticProps.foldl
    (fun d p =>
      if p.readable && (includeReadOnly || p.writable) then
        addMappedData d p.name (getStaticValue node p.name)
      else d) data
  node.dynamicProps.foldl (fun d e => addMappedData d e.1 e.2) data

mutual

/-- QtPropertySerializer::serialize (QtPropertySerializer.cpp).  The
node is destructured so that the recursion over its children is
structural. -/
def serialize (node : Node) (childDepth : Int) (includeReadOnly : Bool) : List (String × QVariant) :=
  match node with
  | ⟨cn, obn, sp, sv, dp, kids⟩ =>
    let data := serializeProps ⟨cn, obn, sp, sv, dp, kids⟩ includeReadOnly
    if childDepth == -1 || childDepth > 0 then
      serializeKids kids (if childDepth > 0 then childDepth - 1 else childDepth)
        includeReadOnly data
    else data
termination_by structural node

def serializeKids (kids : List Node) (d : Int) (includeReadOnly : Bool)
    (data : List (String × QVariant)) : List (String × QVariant) :=
  match kids with
  | [] => data
  | c :: cs =>
    serializeKids cs d includeReadOnly
      (addMappedData data c.className (.vmap (serialize c d includeReadOnly)))
termination_by structural kids

end

/-- The property part of QtObjectPropertySerializer::serialize: the
built-in objectName property is additionally filtered by the
includeObjectName argument. -/
def serializePropsO (node : Node) (includeReadOnly includeObjectName : Bool) : List (String × QVariant) :=
  let data :=
    if includeObjectName then
      addMappedData [] "objectName" (.prim (.pstr node.objectName))
    else []
  let data := node.staticProps.foldl
    (fun d p =>
      if p.readable && (includeReadOnly || p.writable) then
        if includeObjectName || p.name != "objectName" then
          addMappedData d p.name (getStaticValue node p.name)
        else d
      else d) data
  node.dynamicProps.foldl (fun d e => addMappedData d e.1 e.2) data

mutual

/-- QtObjectPropertySerializer::serialize
(QtObjectPropertySerializer.h).  The recursive call for children
passes childDepth and includeReadOnlyProperties but not
includeObjectName, which therefore reverts to its default true. -/
def serializeO (node : Node) (childDepth : Int) (includeReadOnly includeObjectName : Bool) :
    List (String × QVariant) :=
  match node with
  | ⟨cn, obn, sp, sv, dp, kids⟩ =>
    let data := serializePropsO ⟨cn, obn, sp, sv, dp, kids⟩ includeReadOnly includeObjectName
    if childDepth == -1 || childDepth > 0 then
      serializeKidsO kids (if childDepth > 0 then childDepth - 1 else childDepth)
        includeReadOnly data
    else data
termination_by structural node

def serializeKidsO (kids : List Node) (d : Int) (includeReadOnly : Bool)
    (data : List (String × QVariant)) : List (String × QVariant) :=
  match kids with
  | [] => data
  | c :: cs =>
    serializeKidsO cs d includeReadOnly
      (addMappedData data c.className (.vmap (serializeO c d includeReadOnly true)))
termination_by structural kids

end

/-- QtPropertySerializer::ObjectFactory.  A registered zero-argument
creator is modelled as the fresh Node it constructs. -/
structure Factory where
  creators : List (String × Node)

def Factory.hasCreator (f : Factory) (k : String) : Bool :=
  f.creators.any (fun e => e.1 == k)

def Factory.create (f : Factory) (k : String) : Option Node :=
  (f.creators.find? (fun e => e.1 == k)).map (fun e => e.2)

/-- new QObject: a plain parentless QObject with no declared properties
beyond the built-in objectName. -/
def freshQObject : Node :=
  { className := "QObject", objectName := "", staticProps := [],
    staticValues := [], dynamicProps := [], children := [] }

/-- The child-creation fallback of deserialize: className "QObject" is
constructed directly with new QObject; otherwise a non-null factory
with a registered creator for the key is consulted. -/
def createChild (k : String) (factory : Option Factory) : Option Node :=
  if k == "QObject" then some freshQObject
  else
    match factory with
    | some f => if f.hasCreator k then f.create k else none
    | none => none

mutual

/-- QObject::findChildren with Qt.FindChildrenRecursively followed by
the className filter of deserialize: the path (list of child indices)
of the first descendant, in Qt preorder (each child is visited before
its own subtree, siblings left to right), whose objectName equals name
and whose className equals k.  findPathInNode checks the node itself,
then its subtree. -/
def findPathInNode (k name : String) (c : Node) : Option (List Nat) :=
  match c with
  | ⟨cn, obn, _, _, _, grandKids⟩ =>
    if obn == name && cn == k then some []
    else findPathFrom k name 0 grandKids
termination_by structural c

def findPathFrom (k name : String) (i : Nat) (kids : List Node) : Option (List Nat) :=
  match kids with
  | [] => none
  | c :: cs =>
    match findPathInNode k name c with
    | some p => some (i :: p)
    | none => findPathFrom k name (i + 1) cs
termination_by structural kids

end

/-- Fetch the descendant at a path of child indices. -/
def getAtPath (node : Node) : List Nat → Option Node
  | [] => some node
  | i :: p =>
    match node.children.get? i with
    | some c => getAtPath c p
    | none => none

/-- Replace the descendant at a path of child indices. -/
def setAtPath (node : Node) (path : List Nat) (newSub : Node) : Node :=
  match path with
  | [] => newSub
  | i :: p =>
    match node.children.get? i with
    | some c => { node with children := node.children.set i (setAtPath c p newSub) }
    | none => node

/-- The existing-child search of the single-Map case of deserialize:
when the entry declares an objectName, the first preorder descendant
with that objectName and the className of the key (the recursive
findChildren search); otherwise the first direct child with the
className of the key. -/
def dsFindExisting (node : Node) (k : String) (childData : List (String × QVariant)) :
    Option (List Nat) :=
  if mapContains childData "objectName" then
    findPathFrom k (variantToString ((mapLookup childData "objectName").getD (.prim .pnull)))
      0 node.children
  else
    (node.children.findIdx? (fun c => c.className == k)).map (fun i => [i])

/-- The pools of the List case: indices of direct children with the
className of the key, split by whether objectName is non-empty (named
pool) or empty (unnamed pool), in child order. -/
def poolIndices (node : Node) (k : String) (wantNamed : Bool) : List Nat :=
  (List.range node.children.length).filter (fun i =>
    match node.children.get? i with
    | some c => c.className == k && (if wantNamed then c.objectName != "" else c.objectName == "")
    | none => false)

/-- The live named-pool search of the List case: scan the named pool in
pool order for a child whose current objectName equals the declared
name. -/
def findNamedInPool (node : Node) (name : String) (pool : List Nat) : Option Nat :=
  pool.find? (fun i =>
    match node.children.get? i with
    | some c => c.objectName == name
    | none => false)

/-- The named-pool match of a List map element: only an element that
declares an objectName is matched against the named pool, by the
declared name, against the children's current objectName. -/
def pickNamed (node : Node) (childData : List (String × QVariant)) (np : List Nat) : Option Nat :=
  if mapContains childData "objectName" then
    findNamedInPool node
      (variantToString ((mapLookup childData "objectName").getD (.prim .pnull))) np
  else none

mutual

/-- QtPropertySerializer::deserialize (QtPropertySerializer.cpp) on a
non-null object: reconcile a QVariantMap into the object tree in
place, iterating the key-sorted map entries in order. -/
def deserialize (node : Node) (data : List (String × QVariant)) (factory : Option Factory) : Node :=
  match data with
  | [] => node
  | (k, v) :: rest => deserialize (dsEntry node k v factory) rest factory
termination_by structural data

/-- Processing of one map entry of deserialize. -/
def dsEntry (node : Node) (k : String) (v : QVariant) (factory : Option Factory) : Node :=
  match v with
  | .vmap childData =>
    match dsFindExisting node k childData with
    | some path =>
      match getAtPath node path with
      | some c => setAtPath node path (deserialize c childData factory)
      | none => node
    | none =>
      match createChild k factory with
      | some child =>
        { node with children := node.children ++ [deserialize child childData factory] }
      | none => node
  | .vlist items =>
    dsList node k items (poolIndices node k true) (poolIndices node k false) factory
  | _ => setProperty node k v
termination_by structural v

/-- Processing of the elements of a List entry, left to right, with
the named and unnamed pools threaded through. -/
def dsList (node : Node) (k : String) (items : List QVariant) (np up : List Nat)
    (factory : Option Factory) : Node :=
  match items with
  | [] => node
  | .vmap childData :: rest =>
    match pickNamed node childData np with
    | some i =>
      match node.children.get? i with
      | some c =>
        dsList { node with children := node.children.set i (deserialize c childData factory) }
          k rest (np.erase i) up factory
      | none => dsList node k rest (np.erase i) up factory
    | none =>
      match up with
      | i :: up' =>
        match node.children.get? i with
        | some c =>
          dsList { node with children := node.children.set i (deserialize c childData factory) }
            k rest np up' factory
        | none => dsList node k rest np up' factory
      | [] =>
        match createChild k factory with
        | some child =>
          dsList { node with children := node.children ++ [deserialize child childData factory] }
            k rest np up factory
        | none => dsList node k rest np up factory
  | item :: rest => dsList (setProperty node k item) k rest np up factory
termination_by structural items

end

/-- The null-object guard of deserialize: a null target returns
immediately. -/
def deserializeObject : Option Node → List (String × QVariant) → Option Factory → Option Node
  | none, _, _ => none
  | some node, data, factory => some (deserialize node data factory)

/-- QtPropertySerializer::readJson.  File input is modelled as an
optional decoded document: none when the file cannot be opened, in
which case the call aborts reporting false and nothing is touched;
otherwise the whole document is handed to deserialize and the call
reports true. -/
def readJson (fileContents : Option (List (String × QVariant))) (object : Option Node)
    (factory : Option Factory) : Bool × Option Node :=
  match fileContents with
  | none => (false, object)
  | some data => (true, deserializeObject object data factory)

/-- Read a property as a primitive, for concrete observations. -/
def getPropPrim (node : Node) (name : String) : Option Prim :=
  match readProperty node name with
  | .prim p => some p
  | _ => none

/-- A writable readable int property named x. -/
def specX : PropSpec := { name := "x", readable := true, writable := true, ptype := .tint }

/-- A node of class B carrying property x. -/
def bNode (name : String) (x : Int) : Node :=
  { className := "B", objectName := name, staticProps := [specX],
    staticValues := [("x", .prim (.pint x))], dynamicProps := [], children := [] }

/-- A node of class A with the given children. -/
def aNode (name : String) (kids : List Node) : Node :=
  { className := "A", objectName := name, staticProps := [],
    staticValues := [], dynamicProps := [], children := kids }

/-- A childless root node of the given class. -/
def rootNode (cls : String) (kids : List Node) : Node :=
  { className := cls, objectName := "", staticProps := [],
    staticValues := [], dynamicProps := [], children := kids }

/-- Round-trip source tree for C1: a root whose child A contains a
grandchild of class B with x = 5, next to a direct child of class B
with x = 7; every attribute writable, sibling keys pairwise distinct. -/
def treeT : Node := rootNode "Root" [aNode "" [bNode "" 5], bNode "" 7]

/-- The structurally matching fresh tree: same shape, same classes,
default attribute values. -/
def treeFresh : Node := rootNode "Root" [aNode "" [bNode "" 0], bNode "" 0]

/-- A factory registering every type tag of treeT. -/
def factoryAB : Factory :=
  { creators := [("A", aNode "" []), ("B", bNode "" 0)] }

/-- The round-trip result of C1. -/
def roundTripResult : Node :=
  deserialize treeFresh (serialize treeT (-1) true) (some factoryAB)

/-- C2 scenario: the node has a direct child of class B named n2, and a
child of class A containing a grandchild of class B named n1; the
document entry for key B declares objectName n1. -/
def nodeC2 : Node := rootNode "P" [aNode "" [bNode "n1" 0], bNode "n2" 0]

def docC2 : List (String × QVariant) :=
  [("B", .vmap [("objectName", .prim (.pstr "n1")), ("x", .prim (.pint 1))])]

def resultC2 : Node := deserialize nodeC2 docC2 none

/-- C5 scenario: the node has a single child of class A, not mentioned
by the document, whose own child has class B; the document entry for
key B declares an empty objectName. -/
def nodeC5 : Node := rootNode "P" [aNode "" [bNode "" 0]]

def docC5 : List (String × QVariant) :=
  [("B", .vmap [("objectName", .prim (.pstr "")), ("x", .prim (.pint 1))])]

def resultC5 : Node := deserialize nodeC5 docC5 none

/-- C3/C7 scenario: a document naming the type key QObject, reconciled
with no factory at all. -/
def nodeEmpty : Node := rootNode "Root" []

def docC3 : List (String × QVariant) :=
  [("QObject", .vlist [.vmap [("x", .prim (.pint 1))]])]

def resultC3 : Node := deserialize nodeEmpty docC3 none

def docC7 : List (String × QVariant) :=
  [("QObject", .vmap [("x", .prim (.pint 1))])]

def resultC7 : Node := deserialize nodeEmpty docC7 none

/-- C8 scenario: a document whose entries were inserted in the order
CB then CA, reconciled with a factory registering both keys. -/
def factoryC8 : Factory :=
  { creators := [("CA", rootNode "CA" []), ("CB", rootNode "CB" [])] }

def docC8 : List (String × QVariant) :=
  mapInsert (mapInsert [] "CB" (.vmap [])) "CA" (.vmap [])

def resultC8 : Node := deserialize nodeEmpty docC8 (some factoryC8)

/-- C9 scenario: a parent with one child, encoded by the
QtObjectPropertySerializer serializer with includeObjectName false. -/
def childC9 : Node :=
  { className := "C", objectName := "cn", staticProps := [],
    staticValues := [], dynamicProps := [], children := [] }

def nodeC9 : Node :=
  { className := "P", objectName := "pn", staticProps := [], staticValues := [],
    dynamicProps := [], children := [childC9] }

def docC9 : List (String × QVariant) := serializeO nodeC9 (-1) true false

/-- A read-only int property named r, for the dropped-entry scenarios. -/
def specR : PropSpec := { name := "r", readable := true, writable := false, ptype := .tint }

/-- A node carrying the read-only property r (valued 3) and the
writable int property x (valued 0). -/
def nodeC6 : Node :=
  { className := "N", objectName := "", staticProps := [specR, specX],
    staticValues := [("r", .prim (.pint 3)), ("x", .prim (.pint 0))],
    dynamicProps := [], children := [] }

/-- Whether a QVariant is a Map (the child-object shape of a list
element). -/
def isVmap : QVariant → Bool
  | .vmap _ => true
  | _ => false

/-- Whether a QVariant is a List. -/
def isVlist : QVariant → Bool
  | .vlist _ => true
  | _ => false

/-- The keys of a QVariantMap are in strictly ascending QString order:
every key strictly precedes every later key. -/
def mapKeysSorted (m : List (String × QVariant)) : Prop :=
  (m.map (fun e => e.1)).Pairwise (fun a b => qstringLt a b = true)

/-! Helper lemmas about the QString order. -/

theorem charsLt_cons_iff (x d : Char) (xs ds : List Char) :
    charsLt (x :: xs) (d :: ds) = true
      ↔ (x.toNat < d.toNat ∨ (x.toNat = d.toNat ∧ charsLt xs ds = true)) := by
  simp only [charsLt]
  by_cases h1 : x.toNat < d.toNat
  · simp [h1]
  · by_cases h2 : d.toNat < x.toNat
    · rw [if_neg h1, if_pos h2]
      constructor
      · intro h
        exact absurd h (by decide)
      · rintro (h | ⟨h, _⟩) <;> omega
    · have heq : x.toNat = d.toNat := by omega
      simp [h1, h2, heq]

theorem charsLt_irrefl (l : List Char) : charsLt l l = false := by
  induction l with
  | nil => rfl
  | cons c cs ih => simp [charsLt, ih]

theorem charsLt_trans (a : List Char) : ∀ b c, charsLt a b = true → charsLt b c = true →
    charsLt a c = true := by
  induction a with
  | nil =>
    intro b c hab hbc
    cases b with
    | nil => exact hbc
    | cons d ds =>
      cases c with
      | nil => simp [charsLt] at hbc
      | cons e es => rfl
  | cons x xs ih =>
    intro b c hab hbc
    cases b with
    | nil => simp [charsLt] at hab
    | cons d ds =>
      cases c with
      | nil => simp [charsLt] at hbc
      | cons e es =>
        rw [charsLt_cons_iff] at hab hbc ⊢
        rcases hab with h1 | ⟨h1, h1'⟩
        · rcases hbc with h2 | ⟨h2, _⟩
          · exact Or.inl (by omega)
          · exact Or.inl (by omega)
        · rcases hbc with h2 | ⟨h2, h2'⟩
          · exact Or.inl (by omega)
          · exact Or.inr ⟨by omega, ih ds es h1' h2'⟩

theorem charsLt_total (a : List Char) : ∀ b, charsLt a b = false → a ≠ b →
    charsLt b a = true := by
  induction a with
  | nil =>
    intro b hab hne
    cases b with
    | nil => exact absurd rfl hne
    | cons d ds => simp [charsLt] at hab
  | cons x xs ih =>
    intro b hab hne
    cases b with
    | nil => rfl
    | cons d ds =>
      have hab' : ¬(x.toNat < d.toNat ∨ (x.toNat = d.toNat ∧ charsLt xs ds = true)) := by
        rw [← charsLt_cons_iff]
        simp [hab]
      push_neg at hab'
      rw [charsLt_cons_iff]
      by_cases h2 : d.toNat < x.toNat
      · exact Or.inl h2
      · have heq : x.toNat = d.toNat := by
          rcases hab' with ⟨h1, _⟩
          omega
        have hxd : x = d := Char.eq_of_val_eq (UInt32.ext_iff.mpr heq)
        subst hxd
        refine Or.inr ⟨rfl, ih ds ?_ ?_⟩
        · have := hab'.2 rfl
          simpa using this
        · intro h
          exact hne (by rw [h])

theorem qstringLt_trans (a b c : String) (h1 : qstringLt a b = true) (h2 : qstringLt b c = true) :
    qstringLt a c = true :=
  charsLt_trans a.data b.data c.data h1 h2

theorem qstringLt_total (a b : String) (h1 : qstringLt a b = false) (h2 : a ≠ b) :
    qstringLt b a = true := by
  refine charsLt_total a.data b.data h1 ?_
  intro h
  apply h2
  cases a
  cases b
  exact congrArg String.mk h

theorem qstringLt_ne (a b : String) (h : qstringLt a b = true) : a ≠ b := by
  intro heq
  subst heq
  rw [qstringLt, charsLt_irrefl] at h
  cases h

/-! Helper lemmas about the QVariantMap operations. -/

theorem mapContains_eq_isSome (m : List (String × QVariant)) (k : String) :
    mapContains m k = (mapLookup m k).isSome := by
  induction m with
  | nil => rfl
  | cons e rest ih =>
    by_cases h : (e.1 == k) = true
    · simp [mapContains, mapLookup, h]
    · simp only [Bool.not_eq_true] at h
      simp only [mapContains, mapLookup, List.any_cons, List.find?_cons, h] at *
      simpa [h] using ih

theorem mapLookup_mapInsert_self (m : List (String × QVariant)) (k : String) (v : QVariant) :
    mapLookup (mapInsert m k v) k = some v := by
  induction m with
  | nil => simp [mapInsert, mapLookup]
  | cons e rest ih =>
    obtain ⟨k', v'⟩ := e
    by_cases hlt : qstringLt k k' = true
    · simp [mapInsert, mapLookup, hlt]
    · by_cases heq : k = k'
      · subst heq
        simp [mapInsert, mapLookup, hlt]
      · have heq' : ¬(k' = k) := fun h => heq h.symm
        simp only [mapInsert, hlt, if_false, beq_iff_eq, heq, if_neg, ite_false]
        simpa [mapLookup, List.find?_cons, beq_iff_eq, heq'] using ih

theorem mapLookup_mapInsert_ne (m : List (String × QVariant)) (k k' : String) (v : QVariant)
    (hne : k' ≠ k) : mapLookup (mapInsert m k v) k' = mapLookup m k' := by
  have hne' : ¬(k = k') := fun h => hne h.symm
  induction m with
  | nil => simp [mapInsert, mapLookup, beq_iff_eq, hne']
  | cons e rest ih =>
    obtain ⟨k0, v0⟩ := e
    by_cases hlt : qstringLt k k0 = true
    · simp [mapInsert, mapLookup, hlt, beq_iff_eq, hne']
    · by_cases heq : k = k0
      · subst heq
        simp [mapInsert, mapLookup, hlt, beq_iff_eq, hne']
      · simp only [mapInsert, hlt, if_false, beq_iff_eq, heq, ite_false]
        by_cases h0 : k0 = k'
        · simp [mapLookup, List.find?_cons, beq_iff_eq, h0]
        · simpa [mapLookup, List.find?_cons, beq_iff_eq, h0] using ih

theorem mapLookup_addMappedData_ne (m : List (String × QVariant)) (k k' : String) (v : QVariant)
    (hne : k' ≠ k) : mapLookup (addMappedData m k v) k' = mapLookup m k' := by
  unfold addMappedData
  by_cases hc : mapContains m k = true
  · simp only [hc, if_true]
    cases hl : mapLookup m k with
    | none => simp [mapLookup_mapInsert_ne _ _ _ _ hne]
    | some w => cases w <;> simp [mapLookup_mapInsert_ne _ _ _ _ hne]
  · simp only [Bool.not_eq_true] at hc
    simp [hc, mapLookup_mapInsert_ne _ _ _ _ hne]

theorem mapLookup_addMappedData_absent (m : List (String × QVariant)) (k : String) (v : QVariant)
    (h : mapContains m k = false) : mapLookup (addMappedData m k v) k = some v := by
  unfold addMappedData
  simp [h, mapLookup_mapInsert_self]

theorem mapInsert_mem (m : List (String × QVariant)) (k : String) (v : QVariant) :
    ∀ e ∈ mapInsert m k v, e.1 = k ∨ e ∈ m := by
  induction m with
  | nil =>
    intro e he
    simp [mapInsert] at he
    exact Or.inl (by rw [he])
  | cons e0 rest ih =>
    obtain ⟨k0, v0⟩ := e0
    intro e he
    simp only [mapInsert] at he
    by_cases hlt : qstringLt k k0 = true
    · rw [if_pos hlt] at he
      rcases List.mem_cons.mp he with rfl | he2
      · exact Or.inl rfl
      · exact Or.inr he2
    · rw [if_neg hlt] at he
      by_cases heq : (k == k0) = true
      · rw [if_pos heq] at he
        rcases List.mem_cons.mp he with rfl | he2
        · exact Or.inl rfl
        · exact Or.inr (List.mem_cons_of_mem _ he2)
      · rw [if_neg heq] at he
        rcases List.mem_cons.mp he with rfl | he2
        · exact Or.inr (List.mem_cons_self _ _)
        · rcases ih e he2 with h | h
          · exact Or.inl h
          · exact Or.inr (List.mem_cons_of_mem _ h)

theorem mapInsert_keys_subset (m : List (String × QVariant)) (k : String) (v : QVariant) :
    ∀ x ∈ (mapInsert m k v).map (fun e => e.1), x = k ∨ x ∈ m.map (fun e => e.1) := by
  intro x hx
  rw [List.mem_map] at hx
  obtain ⟨e, he, rfl⟩ := hx
  rcases mapInsert_mem m k v e he with h | h
  · exact Or.inl h
  · exact Or.inr (List.mem_map_of_mem _ h)

theorem mapKeysSorted_mapInsert (m : List (String × QVariant)) (k : String) (v : QVariant)
    (hs : mapKeysSorted m) : mapKeysSorted (mapInsert m k v) := by
  induction m with
  | nil => simp [mapInsert, mapKeysSorted]
  | cons e rest ih =>
    obtain ⟨k0, v0⟩ := e
    rw [mapKeysSorted, List.map_cons, List.pairwise_cons] at hs
    obtain ⟨h0, h1⟩ := hs
    rw [mapKeysSorted]
    simp only [mapInsert]
    by_cases hlt : qstringLt k k0 = true
    · rw [if_pos hlt, List.map_cons, List.pairwise_cons]
      constructor
      · intro x hx
        rw [List.map_cons] at hx
        rcases List.mem_cons.mp hx with rfl | hx2
        · exact hlt
        · exact qstringLt_trans k k0 x hlt (h0 x hx2)
      · rw [List.map_cons, List.pairwise_cons]
        exact ⟨h0, h1⟩
    · rw [if_neg hlt]
      by_cases heq : (k == k0) = true
      · rw [if_pos heq, List.map_cons, List.pairwise_cons]
        rw [beq_iff_eq] at heq
        subst heq
        exact ⟨h0, h1⟩
      · rw [if_neg heq, List.map_cons, List.pairwise_cons]
        have hne : k ≠ k0 := by
          intro h
          exact heq (by rw [h, beq_self_eq_true])
        have hlt' : qstringLt k k0 = false := by
          rw [Bool.not_eq_true] at hlt
          exact hlt
        have hk0k : qstringLt k0 k = true := qstringLt_total k k0 hlt' hne
        refine ⟨?_, ih h1⟩
        intro x hx
        rcases mapInsert_keys_subset rest k v x hx with h | h
        · exact h ▸ hk0k
        · exact h0 x h

theorem mapKeysSorted_keys_ne (m : List (String × QVariant)) (hs : mapKeysSorted m) :
    (m.map (fun e => e.1)).Pairwise (fun a b => a ≠ b) := by
  rw [mapKeysSorted] at hs
  exact hs.imp (fun h => qstringLt_ne _ _ h)

theorem hasCreator_eq_isSome (f : Factory) (k : String) :
    f.hasCreator k = (f.create k).isSome := by
  rw [Factory.hasCreator, Factory.create]
  induction f.creators with
  | nil => rfl
  | cons e rest ih =>
    by_cases h : (e.1 == k) = true
    · simp [h]
    · simp only [Bool.not_eq_true] at h
      simpa [h] using ih

theorem mapLookup_foldl_static_none (node : Node) (incRO : Bool) (X : String)
    (l : List PropSpec) :
    ∀ d, mapLookup d X = none → (∀ p ∈ l, p.name ≠ X) →
    mapLookup (l.foldl (fun d p =>
      if p.readable && (incRO || p.writable) then
        addMappedData d p.name (getStaticValue node p.name)
      else d) d) X = none := by
  induction l with
  | nil =>
    intro d hd _
    simpa using hd
  | cons p rest ih =>
    intro d hd hl
    rw [List.foldl_cons]
    apply ih
    · by_cases hc : (p.readable && (incRO || p.writable)) = true
      · rw [if_pos hc, mapLookup_addMappedData_ne _ _ _ _ (fun h => hl p (by simp) h.symm)]
        exact hd
      · rw [if_neg hc]
        exact hd
    · intro q hq
      exact hl q (by simp [hq])

theorem mapLookup_foldl_dyn_none (X : String) (l : List (String × QVariant)) :
    ∀ d, mapLookup d X = none → (∀ e ∈ l, e.1 ≠ X) →
    mapLookup (l.foldl (fun d e => addMappedData d e.1 e.2) d) X = none := by
  induction l with
  | nil =>
    intro d hd _
    simpa using hd
  | cons e rest ih =>
    intro d hd hl
    rw [List.foldl_cons]
    apply ih
    · rw [mapLookup_addMappedData_ne _ _ _ _ (fun h => hl e (by simp) h.symm)]
      exact hd
    · intro q hq
      exact hl q (by simp [hq])

theorem serializeProps_lookup_none (node : Node) (incRO : Bool) (X : String)
    (hX : X ≠ "objectName")
    (hs : ∀ p ∈ node.staticProps, p.name ≠ X) (hd : ∀ e ∈ node.dynamicProps, e.1 ≠ X) :
    mapLookup (serializeProps node incRO) X = none := by
  rw [serializeProps]
  apply mapLookup_foldl_dyn_none X node.dynamicProps _ _ hd
  apply mapLookup_foldl_static_none node incRO X node.staticProps _ _ hs
  rw [mapLookup_addMappedData_ne _ _ _ _ hX]
  rfl

theorem mapLookup_foldl_staticO_keep (node : Node) (incRO incO : Bool) (X : String)
    (l : List PropSpec) :
    ∀ d, (∀ p ∈ l, p.name = X →
        (p.readable && (incRO || p.writable)) = false
          ∨ (incO || p.name != "objectName") = false) →
    mapLookup (l.foldl (fun d p =>
      if p.readable && (incRO || p.writable) then
        if incO || p.name != "objectName" then
          addMappedData d p.name (getStaticValue node p.name)
        else d
      else d) d) X = mapLookup d X := by
  induction l with
  | nil =>
    intro d _
    rfl
  | cons p rest ih =>
    intro d hl
    rw [List.foldl_cons]
    rw [ih _ (fun q hq h => hl q (by simp [hq]) h)]
    by_cases hname : p.name = X
    · rcases hl p (by simp) hname with h | h
      · rw [if_neg (by rw [h]; exact fun hx => nomatch hx)]
      · by_cases hc : (p.readable && (incRO || p.writable)) = true
        · rw [if_pos hc, if_neg (by rw [h]; exact fun hx => nomatch hx)]
        · rw [if_neg hc]
    · by_cases hc : (p.readable && (incRO || p.writable)) = true
      · by_cases hc2 : (incO || p.name != "objectName") = true
        · rw [if_pos hc, if_pos hc2,
            mapLookup_addMappedData_ne _ _ _ _ (fun h => hname h.symm)]
        · rw [if_pos hc, if_neg hc2]
      · rw [if_neg hc]

theorem mapLookup_foldl_dyn_keep (X : String) (l : List (String × QVariant)) :
    ∀ d, (∀ e ∈ l, e.1 ≠ X) →
    mapLookup (l.foldl (fun d e => addMappedData d e.1 e.2) d) X = mapLookup d X := by
  induction l with
  | nil =>
    intro d _
    rfl
  | cons e rest ih =>
    intro d hl
    rw [List.foldl_cons, ih _ (fun q hq => hl q (by simp [hq])),
      mapLookup_addMappedData_ne _ _ _ _ (fun h => hl e (by simp) h.symm)]

theorem serializeKidsO_keep (d : Int) (incRO : Bool) (X : String) (kids : List Node) :
    ∀ data, (∀ c ∈ kids, c.className ≠ X) →
    mapLookup (serializeKidsO kids d incRO data) X = mapLookup data X := by
  induction kids with
  | nil =>
    intro data _
    rfl
  | cons c cs ih =>
    intro data hl
    rw [serializeKidsO, ih _ (fun q hq => hl q (by simp [hq])),
      mapLookup_addMappedData_ne _ _ _ _ (fun h => hl c (by simp) h.symm)]

theorem serializePropsO_lookup_objectName_false (node : Node) (incRO : Bool)
    (hdyn : ∀ e ∈ node.dynamicProps, e.1 ≠ "objectName") :
    mapLookup (serializePropsO node incRO false) "objectName" = none := by
  rw [serializePropsO]
  rw [mapLookup_foldl_dyn_keep _ _ _ hdyn]
  rw [mapLookup_foldl_staticO_keep node incRO false "objectName" node.staticProps _ ?_]
  · rfl
  · intro p hp hname
    right
    rw [hname]
    rfl

theorem serializePropsO_lookup_ne (node : Node) (incRO incO : Bool) (X : String)
    (hX : X ≠ "objectName")
    (hs : ∀ p ∈ node.staticProps, p.name ≠ X) (hd : ∀ e ∈ node.dynamicProps, e.1 ≠ X) :
    mapLookup (serializePropsO node incRO incO) X = none := by
  rw [serializePropsO]
  rw [mapLookup_foldl_dyn_keep _ _ _ hd]
  rw [mapLookup_foldl_staticO_keep node incRO incO X node.staticProps _ ?_]
  · cases incO with
    | false => rfl
    | true =>
      rw [if_pos rfl, mapLookup_addMappedData_ne _ _ _ _ hX]
      rfl
  · intro p hp hname
    exact absurd hname (hs p hp)

theorem serializePropsO_lookup_objectName_true (node : Node) (incRO : Bool)
    (hstat : ∀ p ∈ node.staticProps, p.name ≠ "objectName")
    (hdyn : ∀ e ∈ node.dynamicProps, e.1 ≠ "objectName") :
    mapLookup (serializePropsO node incRO true) "objectName"
      = some (.prim (.pstr node.objectName)) := by
  rw [serializePropsO]
  rw [mapLookup_foldl_dyn_keep _ _ _ hdyn]
  rw [mapLookup_foldl_staticO_keep node incRO true "objectName" node.staticProps _ ?_]
  · rfl
  · intro p hp hname
    exact absurd hname (hstat p hp)

theorem serializePropsO_lookup_unwritable (node : Node) (b : Bool) (N : String)
    (hN : N ≠ "objectName")
    (hs : ∀ p ∈ node.staticProps, p.name = N → p.writable = false)
    (hd : ∀ e ∈ node.dynamicProps, e.1 ≠ N) :
    mapLookup (serializePropsO node false b) N = none := by
  rw [serializePropsO]
  rw [mapLookup_foldl_dyn_keep _ _ _ hd]
  rw [mapLookup_foldl_staticO_keep node false b N node.staticProps _ ?_]
  · cases b with
    | false => rfl
    | true =>
      rw [if_pos rfl, mapLookup_addMappedData_ne _ _ _ _ hN]
      rfl
  · intro p hp hname
    left
    rw [hs p hp hname]
    simp

theorem setProperty_children (node : Node) (name : String) (v : QVariant) :
    (setProperty node name v).children = node.children := by
  unfold setProperty
  split
  · split <;> rfl
  · split
    · split <;> rfl
    · rfl

theorem setProperty_staticProps (node : Node) (name : String) (v : QVariant) :
    (setProperty node name v).staticProps = node.staticProps := by
  unfold setProperty
  split
  · split <;> rfl
  · split
    · split <;> rfl
    · rfl

theorem setProperty_dyn_of_not_declared (node : Node) (name : String) (v : QVariant)
    (hn : name ≠ "objectName")
    (hf : node.staticProps.find? (fun p => p.name == name) = none) :
    (setProperty node name v).dynamicProps = setAssoc node.dynamicProps name v := by
  unfold setProperty
  rw [if_neg (by simp [hn]), hf]

theorem setAssoc_find_self (l : List (String × QVariant)) (k : String) (v : QVariant) :
    ((setAssoc l k v).find? (fun e => e.1 == k)).map (fun e => e.2) = some v := by
  induction l with
  | nil => simp [setAssoc]
  | cons e rest ih =>
    by_cases h : (e.1 == k) = true
    · simp [setAssoc, h]
    · simp only [Bool.not_eq_true] at h
      simp only [setAssoc, h, Bool.false_eq_true, if_false, List.find?_cons, h]
      exact ih

theorem setProperty_twice_read (node : Node) (k : String) (v1 v2 : QVariant)
    (hk : k ≠ "objectName")
    (hf : node.staticProps.find? (fun q => q.name == k) = none) :
    readProperty (setProperty (setProperty node k v1) k v2) k = v2 := by
  have hs1 := setProperty_staticProps node k v1
  have hf1 : (setProperty node k v1).staticProps.find? (fun q => q.name == k) = none := by
    rw [hs1]
    exact hf
  have hd2 := setProperty_dyn_of_not_declared (setProperty node k v1) k v2 hk hf1
  have hf2 : (setProperty (setProperty node k v1) k v2).staticProps.find?
      (fun q => q.name == k) = none := by
    rw [setProperty_staticProps, hs1]
    exact hf
  unfold readProperty
  rw [if_neg (by simp [hk]), hf2, hd2]
  rw [setAssoc_find_self]
  rfl

theorem pickNamed_mem (node : Node) (m : List (String × QVariant)) (np : List Nat) (i : Nat)
    (h : pickNamed node m np = some i) : i ∈ np := by
  unfold pickNamed at h
  split at h
  · rw [findNamedInPool] at h
    exact List.mem_of_find?_eq_some h
  · cases h

theorem poolIndices_mem (node : Node) (k : String) (wantNamed : Bool) (i : Nat) :
    i ∈ poolIndices node k wantNamed
      ↔ i < node.children.length
        ∧ ∃ c, node.children.get? i = some c
            ∧ (c.className == k) = true
            ∧ (if wantNamed then c.objectName != "" else c.objectName == "") = true := by
  rw [poolIndices, List.mem_filter, List.mem_range]
  constructor
  · rintro ⟨h1, h2⟩
    refine ⟨h1, ?_⟩
    cases hg : node.children.get? i with
    | none =>
      rw [hg] at h2
      cases h2
    | some c =>
      rw [hg] at h2
      simp only [Bool.and_eq_true] at h2
      exact ⟨c, rfl, h2.1, h2.2⟩
  · rintro ⟨h1, c, hg, hc1, hc2⟩
    refine ⟨h1, ?_⟩
    rw [hg]
    simp [hc1, hc2]

theorem dsList_frame (k : String) (f : Option Factory) (items : List QVariant) :
    ∀ (node : Node) (np up : List Nat),
    ∃ consumed : List Nat,
      (∀ i ∈ consumed, i ∈ np ∨ i ∈ up)
      ∧ consumed.length ≤ (items.filter (fun v => isVmap v)).length
      ∧ node.children.length ≤ (dsList node k items np up f).children.length
      ∧ ∀ i, i < node.children.length → i ∉ consumed →
          (dsList node k items np up f).children.get? i = node.children.get? i := by
  induction items with
  | nil =>
    intro node np up
    refine ⟨[], by simp, by simp, Nat.le_refl _, ?_⟩
    intro i _ _
    rfl
  | cons item rest ih =>
    intro node np up
    cases item with
    | prim p =>
      obtain ⟨cons', h1, h2, h3, h4⟩ := ih (setProperty node k (.prim p)) np up
      have hchild := setProperty_children node k (.prim p)
      have hfe : ((QVariant.prim p :: rest).filter (fun v => isVmap v))
          = rest.filter (fun v => isVmap v) := by
        simp [isVmap]
      refine ⟨cons', h1, by rw [hfe]; exact h2, ?_, ?_⟩
      · show node.children.length
          ≤ (dsList (setProperty node k (.prim p)) k rest np up f).children.length
        rw [← hchild]
        exact h3
      · intro i hi hni
        show (dsList (setProperty node k (.prim p)) k rest np up f).children.get? i
          = node.children.get? i
        rw [← hchild]
        exact h4 i (by rw [hchild]; exact hi) hni
    | vlist l =>
      obtain ⟨cons', h1, h2, h3, h4⟩ := ih (setProperty node k (.vlist l)) np up
      have hchild := setProperty_children node k (.vlist l)
      have hfe : ((QVariant.vlist l :: rest).filter (fun v => isVmap v))
          = rest.filter (fun v => isVmap v) := by
        simp [isVmap]
      refine ⟨cons', h1, by rw [hfe]; exact h2, ?_, ?_⟩
      · show node.children.length
          ≤ (dsList (setProperty node k (.vlist l)) k rest np up f).children.length
        rw [← hchild]
        exact h3
      · intro i hi hni
        show (dsList (setProperty node k (.vlist l)) k rest np up f).children.get? i
          = node.children.get? i
        rw [← hchild]
        exact h4 i (by rw [hchild]; exact hi) hni
    | vmap m =>
      have hfe : ((QVariant.vmap m :: rest).filter (fun v => isVmap v)).length
          = (rest.filter (fun v => isVmap v)).length + 1 := by
        simp [isVmap]
      cases hpick : pickNamed node m np with
      | some j =>
        cases hget : node.children.get? j with
        | some c =>
          have hstep : dsList node k (.vmap m :: rest) np up f
              = dsList { node with children := node.children.set j (deserialize c m f) } k
                  rest (np.erase j) up f := by
            simp only [dsList, hpick, hget]
          obtain ⟨cons', h1, h2, h3, h4⟩ :=
            ih { node with children := node.children.set j (deserialize c m f) } (np.erase j) up
          refine ⟨j :: cons', ?_, ?_, ?_, ?_⟩
          · intro i hi
            rcases List.mem_cons.mp hi with rfl | hi2
            · exact Or.inl (pickNamed_mem node m np i hpick)
            · rcases h1 i hi2 with h | h
              · exact Or.inl (List.mem_of_mem_erase h)
              · exact Or.inr h
          · rw [hfe, List.length_cons]
            exact Nat.succ_le_succ h2
          · rw [hstep]
            calc node.children.length
                = (node.children.set j (deserialize c m f)).length :=
                  (List.length_set _ _ _).symm
              _ ≤ _ := h3
          · intro i hi hni
            have hine : i ≠ j := fun h => hni (h ▸ List.mem_cons_self j cons')
            have hni' : i ∉ cons' := fun h => hni (List.mem_cons_of_mem _ h)
            rw [hstep]
            have hlen : i
                < ({ node with
                      children := node.children.set j (deserialize c m f) } : Node
                    ).children.length := by
              simpa [List.length_set] using hi
            rw [h4 i hlen hni']
            exact List.get?_set_ne _ _ (Ne.symm hine)
        | none =>
          have hstep : dsList node k (.vmap m :: rest) np up f
              = dsList node k rest (np.erase j) up f := by
            simp only [dsList, hpick, hget]
          obtain ⟨cons', h1, h2, h3, h4⟩ := ih node (np.erase j) up
          refine ⟨cons', ?_, ?_, by rw [hstep]; exact h3, ?_⟩
          · intro i hi
            rcases h1 i hi with h | h
            · exact Or.inl (List.mem_of_mem_erase h)
            · exact Or.inr h
          · rw [hfe]
            exact Nat.le_succ_of_le h2
          · intro i hi hni
            rw [hstep]
            exact h4 i hi hni
      | none =>
        cases up with
        | cons j up' =>
          cases hget : node.children.get? j with
          | some c =>
            have hstep : dsList node k (.vmap m :: rest) np (j :: up') f
                = dsList { node with children := node.children.set j (deserialize c m f) } k
                    rest np up' f := by
              simp only [dsList, hpick, hget]
            obtain ⟨cons', h1, h2, h3, h4⟩ :=
              ih { node with children := node.children.set j (deserialize c m f) } np up'
            refine ⟨j :: cons', ?_, ?_, ?_, ?_⟩
            · intro i hi
              rcases List.mem_cons.mp hi with rfl | hi2
              · exact Or.inr (List.mem_cons_self i up')
              · rcases h1 i hi2 with h | h
                · exact Or.inl h
                · exact Or.inr (List.mem_cons_of_mem _ h)
            · rw [hfe, List.length_cons]
              exact Nat.succ_le_succ h2
            · rw [hstep]
              calc node.children.length
                  = (node.children.set j (deserialize c m f)).length :=
                    (List.length_set _ _ _).symm
                _ ≤ _ := h3
            · intro i hi hni
              have hine : i ≠ j := fun h => hni (h ▸ List.mem_cons_self j cons')
              have hni' : i ∉ cons' := fun h => hni (List.mem_cons_of_mem _ h)
              rw [hstep]
              have hlen : i
                  < ({ node with
                        children := node.children.set j (deserialize c m f) } : Node
                      ).children.length := by
                simpa [List.length_set] using hi
              rw [h4 i hlen hni']
              exact List.get?_set_ne _ _ (Ne.symm hine)
          | none =>
            have hstep : dsList node k (.vmap m :: rest) np (j :: up') f
                = dsList node k rest np up' f := by
              simp only [dsList, hpick, hget]
            obtain ⟨cons', h1, h2, h3, h4⟩ := ih node np up'
            refine ⟨j :: cons', ?_, ?_, by rw [hstep]; exact h3, ?_⟩
            · intro i hi
              rcases List.mem_cons.mp hi with rfl | hi2
              · exact Or.inr (List.mem_cons_self i up')
              · rcases h1 i hi2 with h | h
                · exact Or.inl h
                · exact Or.inr (List.mem_cons_of_mem _ h)
            · rw [hfe, List.length_cons]
              exact Nat.succ_le_succ h2
            · intro i hi hni
              have hni' : i ∉ cons' := fun h => hni (List.mem_cons_of_mem _ h)
              rw [hstep]
              exact h4 i hi hni'
        | nil =>
          cases hcc : createChild k f with
          | some child =>
            have hstep : dsList node k (.vmap m :: rest) np [] f
                = dsList { node with
                    children := node.children ++ [deserialize child m f] } k rest np [] f := by
              simp only [dsList, hpick, hcc]
            obtain ⟨cons', h1, h2, h3, h4⟩ :=
              ih { node with children := node.children ++ [deserialize child m f] } np []
            refine ⟨cons', h1, ?_, ?_, ?_⟩
            · rw [hfe]
              exact Nat.le_succ_of_le h2
            · rw [hstep]
              calc node.children.length
                  ≤ (node.children ++ [deserialize child m f]).length := by
                    rw [List.length_append]
                    omega
                _ ≤ _ := h3
            · intro i hi hni
              rw [hstep]
              have hlen : i
                  < ({ node with
                        children := node.children ++ [deserialize child m f] } : Node
                      ).children.length := by
                simp only [List.length_append]
                omega
              rw [h4 i hlen hni]
              exact List.get?_append hi
          | none =>
            have hstep : dsList node k (.vmap m :: rest) np [] f
                = dsList node k rest np [] f := by
              simp only [dsList, hpick, hcc]
            obtain ⟨cons', h1, h2, h3, h4⟩ := ih node np []
            refine ⟨cons', h1, ?_, by rw [hstep]; exact h3, ?_⟩
            · rw [hfe]
              exact Nat.le_succ_of_le h2
            · intro i hi hni
              rw [hstep]
              exact h4 i hi hni

/-!
Claim theorems.
-/

/-- C4: the folding helper inserts a value bare when the key is
absent; appends when the existing value under the key is already a
List; otherwise replaces the existing value with a two-element List.
Consequently, for a serialize call with unlimited depth, a node whose
single child has class X (X colliding with no emitted property name)
encodes X to the bare Map of the child, never a one-element List, and
a node with exactly two class-X children encodes X to the two-element
List of their Maps. -/
theorem c4_folding :
    (∀ (data : List (String × QVariant)) (key : String) (value : QVariant),
      mapContains data key = false →
        addMappedData data key value = mapInsert data key value
        ∧ mapLookup (addMappedData data key value) key = some value)
    ∧ (∀ (data : List (String × QVariant)) (key : String) (value : QVariant)
        (vs : List QVariant),
        mapLookup data key = some (.vlist vs) →
        addMappedData data key value = mapInsert data key (.vlist (vs ++ [value])))
    ∧ (∀ (data : List (String × QVariant)) (key : String) (value w : QVariant),
        mapLookup data key = some w → isVlist w = false →
        addMappedData data key value = mapInsert data key (.vlist [w, value]))
    ∧ (∀ (node c : Node) (X : String) (incRO : Bool),
        node.children = [c] → c.className = X → X ≠ "objectName" →
        (∀ p ∈ node.staticProps, p.name ≠ X) → (∀ e ∈ node.dynamicProps, e.1 ≠ X) →
        mapLookup (serialize node (-1) incRO) X = some (.vmap (serialize c (-1) incRO)))
    ∧ (∀ (node c1 c2 : Node) (X : String) (incRO : Bool),
        node.children = [c1, c2] → c1.className = X → c2.className = X → X ≠ "objectName" →
        (∀ p ∈ node.staticProps, p.name ≠ X) → (∀ e ∈ node.dynamicProps, e.1 ≠ X) →
        mapLookup (serialize node (-1) incRO) X
          = some (.vlist [.vmap (serialize c1 (-1) incRO), .vmap (serialize c2 (-1) incRO)])) := by
  refine ⟨?_, ?_, ?_, ?_, ?_⟩
  · intro data key value h
    refine ⟨by simp [addMappedData, h], mapLookup_addMappedData_absent data key value h⟩
  · intro data key value vs hlk
    have hc : mapContains data key = true := by
      rw [mapContains_eq_isSome, hlk]
      rfl
    simp [addMappedData, hc, hlk]
  · intro data key value w hlk hw
    have hc : mapContains data key = true := by
      rw [mapContains_eq_isSome, hlk]
      rfl
    cases w with
    | prim p => simp [addMappedData, hc, hlk]
    | vmap mm => simp [addMappedData, hc, hlk]
    | vlist l => simp [isVlist] at hw
  · intro node c X incRO hch hcc hX hs hd
    subst hcc
    have hnone : mapLookup (serializeProps node incRO) c.className = none :=
      serializeProps_lookup_none node incRO c.className hX hs hd
    have hcont : mapContains (serializeProps node incRO) c.className = false := by
      rw [mapContains_eq_isSome, hnone]
      rfl
    obtain ⟨cn, obn, sp, sv, dp, kids⟩ := node
    have hch' : kids = [c] := hch
    subst hch'
    show mapLookup
      (addMappedData (serializeProps ⟨cn, obn, sp, sv, dp, [c]⟩ incRO) c.className
        (.vmap (serialize c (-1) incRO))) c.className = some (.vmap (serialize c (-1) incRO))
    exact mapLookup_addMappedData_absent _ _ _ hcont
  · intro node c1 c2 X incRO hch hcc1 hcc2 hX hs hd
    subst hcc1
    have hnone : mapLookup (serializeProps node incRO) c1.className = none :=
      serializeProps_lookup_none node incRO c1.className hX hs hd
    have hcont : mapContains (serializeProps node incRO) c1.className = false := by
      rw [mapContains_eq_isSome, hnone]
      rfl
    obtain ⟨cn, obn, sp, sv, dp, kids⟩ := node
    have hch' : kids = [c1, c2] := hch
    subst hch'
    show mapLookup
      (addMappedData
        (addMappedData (serializeProps ⟨cn, obn, sp, sv, dp, [c1, c2]⟩ incRO) c1.className
          (.vmap (serialize c1 (-1) incRO)))
        c2.className (.vmap (serialize c2 (-1) incRO))) c1.className
      = some (.vlist [.vmap (serialize c1 (-1) incRO), .vmap (serialize c2 (-1) incRO)])
    rw [hcc2]
    have h1 : mapLookup
        (addMappedData (serializeProps ⟨cn, obn, sp, sv, dp, [c1, c2]⟩ incRO) c1.className
          (.vmap (serialize c1 (-1) incRO))) c1.className
        = some (.vmap (serialize c1 (-1) incRO)) :=
      mapLookup_addMappedData_absent _ _ _ hcont
    set d1 := addMappedData (serializeProps ⟨cn, obn, sp, sv, dp, [c1, c2]⟩ incRO) c1.className
      (QVariant.vmap (serialize c1 (-1) incRO)) with hd1
    have hc1 : mapContains d1 c1.className = true := by
      rw [mapContains_eq_isSome, h1]
      rfl
    have h2 : addMappedData d1 c1.className (.vmap (serialize c2 (-1) incRO))
        = mapInsert d1 c1.className
            (.vlist [.vmap (serialize c1 (-1) incRO), .vmap (serialize c2 (-1) incRO)]) := by
      unfold addMappedData
      rw [hc1, h1]
      simp
    rw [h2, mapLookup_mapInsert_self]

/-- C4 (witness): concrete uses of c4_folding: the three folding
shapes on small maps, the single-child and two-children encodings on
concrete trees. -/
theorem c4_folding_witness :
    (addMappedData [] "k" (.prim (.pint 1)) = mapInsert [] "k" (.prim (.pint 1))
      ∧ mapLookup (addMappedData [] "k" (.prim (.pint 1))) "k" = some (.prim (.pint 1)))
    ∧ addMappedData [("k", .vlist [.prim (.pint 1)])] "k" (.prim (.pint 2))
        = mapInsert [("k", .vlist [.prim (.pint 1)])] "k"
            (.vlist [.prim (.pint 1), .prim (.pint 2)])
    ∧ addMappedData [("k", .prim (.pint 1))] "k" (.prim (.pint 2))
        = mapInsert [("k", .prim (.pint 1))] "k" (.vlist [.prim (.pint 1), .prim (.pint 2)])
    ∧ mapLookup (serialize (aNode "" [bNode "" 0]) (-1) true) "B"
        = some (.vmap (serialize (bNode "" 0) (-1) true))
    ∧ mapLookup (serialize (rootNode "Root" [bNode "" 1, bNode "" 2]) (-1) true) "B"
        = some (.vlist [.vmap (serialize (bNode "" 1) (-1) true),
                        .vmap (serialize (bNode "" 2) (-1) true)]) := by
  refine ⟨c4_folding.1 [] "k" (.prim (.pint 1)) (by decide),
          c4_folding.2.1 [("k", .vlist [.prim (.pint 1)])] "k" (.prim (.pint 2))
            [.prim (.pint 1)] rfl,
          c4_folding.2.2.1 [("k", .prim (.pint 1))] "k" (.prim (.pint 2)) (.prim (.pint 1))
            rfl (by decide),
          c4_folding.2.2.2.1 (aNode "" [bNode "" 0]) (bNode "" 0) "B" true rfl rfl
            (by decide) (by simp [aNode]) (by simp [aNode]),
          c4_folding.2.2.2.2 (rootNode "Root" [bNode "" 1, bNode "" 2]) (bNode "" 1)
            (bNode "" 2) "B" true rfl rfl rfl (by decide) (by simp [rootNode])
            (by simp [rootNode])⟩

/-- C9 (counterexample): encoding nodeC9 (a parent with one child of
class C) with includeObjectName false omits objectName from the root
map but not from the child's map: the recursive serialize call does
not pass includeObjectName, so it reverts to its default true. -/
theorem c9_counterexample :
    (mapLookup (serializeO nodeC9 (-1) true false) "objectName").isNone = true
    ∧ (mapLookup (serializeO nodeC9 (-1) true false) "C").map
        (fun v => match v with
          | .vmap m => mapContains m "objectName"
          | _ => false) = some true := by
  refine ⟨by decide, by decide⟩

/-- C9 (amended): with includeObjectName false the display-name
attribute is omitted only from the map of the node serializeO is
called on; each child is encoded by a recursive call with
includeObjectName reset to true, so (collisions aside) a descendant's
map always carries its objectName; non-writable attributes are omitted
from the map of every node encoded with includeReadOnly false, which
is passed through to the recursive calls. -/
theorem c9_display_name_scope :
    (∀ (node : Node) (d : Int) (incRO : Bool),
      (∀ e ∈ node.dynamicProps, e.1 ≠ "objectName") →
      (∀ c ∈ node.children, c.className ≠ "objectName") →
      mapLookup (serializeO node d incRO false) "objectName" = none)
    ∧ (∀ (node c : Node) (X : String) (incRO b : Bool),
        node.children = [c] → c.className = X → X ≠ "objectName" →
        (∀ p ∈ node.staticProps, p.name ≠ X) → (∀ e ∈ node.dynamicProps, e.1 ≠ X) →
        mapLookup (serializeO node (-1) incRO b) X
          = some (.vmap (serializeO c (-1) incRO true)))
    ∧ (∀ (node : Node) (d : Int) (incRO : Bool),
        (∀ p ∈ node.staticProps, p.name ≠ "objectName") →
        (∀ e ∈ node.dynamicProps, e.1 ≠ "objectName") →
        (∀ c ∈ node.children, c.className ≠ "objectName") →
        mapLookup (serializeO node d incRO true) "objectName"
          = some (.prim (.pstr node.objectName)))
    ∧ (∀ (node : Node) (d : Int) (b : Bool) (N : String),
        N ≠ "objectName" →
        (∀ p ∈ node.staticProps, p.name = N → p.writable = false) →
        (∀ e ∈ node.dynamicProps, e.1 ≠ N) →
        (∀ c ∈ node.children, c.className ≠ N) →
        mapLookup (serializeO node d false b) N = none) := by
  refine ⟨?_, ?_, ?_, ?_⟩
  · intro node d incRO hdyn hkids
    have hprops := serializePropsO_lookup_objectName_false node incRO hdyn
    obtain ⟨cn, obn, sp, sv, dp, kids⟩ := node
    simp only [serializeO]
    split
    · rw [serializeKidsO_keep _ _ _ _ _ hkids]
      exact hprops
    · exact hprops
  · intro node c X incRO b hch hcc hX hs hd
    subst hcc
    have hnone := serializePropsO_lookup_ne node incRO b c.className hX hs hd
    have hcont : mapContains (serializePropsO node incRO b) c.className = false := by
      rw [mapContains_eq_isSome, hnone]
      rfl
    obtain ⟨cn, obn, sp, sv, dp, kids⟩ := node
    have hch' : kids = [c] := hch
    subst hch'
    show mapLookup
      (addMappedData (serializePropsO ⟨cn, obn, sp, sv, dp, [c]⟩ incRO b) c.className
        (.vmap (serializeO c (-1) incRO true))) c.className
      = some (.vmap (serializeO c (-1) incRO true))
    exact mapLookup_addMappedData_absent _ _ _ hcont
  · intro node d incRO hstat hdyn hkids
    have hprops := serializePropsO_lookup_objectName_true node incRO hstat hdyn
    obtain ⟨cn, obn, sp, sv, dp, kids⟩ := node
    simp only [serializeO]
    split
    · rw [serializeKidsO_keep _ _ _ _ _ hkids]
      exact hprops
    · exact hprops
  · intro node d b N hN hstat hdyn hkids
    have hprops := serializePropsO_lookup_unwritable node b N hN hstat hdyn
    obtain ⟨cn, obn, sp, sv, dp, kids⟩ := node
    simp only [serializeO]
    split
    · rw [serializeKidsO_keep _ _ _ _ _ hkids]
      exact hprops
    · exact hprops

/-- C9 (witness): concrete uses of c9_display_name_scope on nodeC9,
childC9 and nodeC6. -/
theorem c9_display_name_scope_witness :
    mapLookup (serializeO nodeC9 (-1) true false) "objectName" = none
    ∧ mapLookup (serializeO nodeC9 (-1) true false) "C"
        = some (.vmap (serializeO childC9 (-1) true true))
    ∧ mapLookup (serializeO childC9 (-1) true true) "objectName"
        = some (.prim (.pstr childC9.objectName))
    ∧ mapLookup (serializeO nodeC6 (-1) false true) "r" = none := by
  refine ⟨c9_display_name_scope.1 nodeC9 (-1) true (by decide) (by decide),
          c9_display_name_scope.2.1 nodeC9 childC9 "C" true false rfl rfl (by decide)
            (by decide) (by decide),
          c9_display_name_scope.2.2.1 childC9 (-1) true (by decide) (by decide) (by decide),
          c9_display_name_scope.2.2.2 nodeC6 (-1) true "r" (by decide) (by decide) (by decide)
            (by decide)⟩

/-- C10: reconciling into a null target object is a total no-op: it
returns immediately, for every document and every factory, without
creating or modifying anything. -/
theorem c10_null_object_noop :
    ∀ (data : List (String × QVariant)) (factory : Option Factory),
      deserializeObject none data factory = none :=
  fun _ _ => rfl

/-- C1 (failing input): the round trip fails on treeT, a tree with only
writable attributes and pairwise-distinct child keys at every node.
In treeT the grandchild of class B holds x = 5 and the direct child of
class B holds x = 7; after reconciling the structurally matching fresh
tree with serialize treeT (factory registering every type tag), the
grandchild holds x = 7 and the direct child still holds the fresh
x = 0: attribute values are not reproduced.  The recursive
findChildren search of deserialize matched the root's B entry against
the grandchild instead of the direct child. -/
theorem c1_roundtrip_failing_input :
    (getAtPath treeT [0, 0]).map (fun n => getPropPrim n "x") = some (some (.pint 5))
    ∧ (getAtPath treeT [1]).map (fun n => getPropPrim n "x") = some (some (.pint 7))
    ∧ (getAtPath roundTripResult [0, 0]).map (fun n => getPropPrim n "x") = some (some (.pint 7))
    ∧ (getAtPath roundTripResult [1]).map (fun n => getPropPrim n "x") = some (some (.pint 0)) := by
  refine ⟨by decide, by decide, by decide, by decide⟩

/-- C2 (failing input): for a document entry of key B declaring
objectName n1, deserialize does not restrict the search to the
children of the node: on nodeC2, whose only name-n1 object of class B
is a grandchild (a child of the class-A child), the grandchild is
reconciled (it receives x = 1) while the direct class-B child named
n2 is left untouched and no new child is created. -/
theorem c2_named_search_reaches_grandchild :
    (getAtPath nodeC2 [0, 0]).map (fun n => (n.objectName, getPropPrim n "x"))
      = some ("n1", some (.pint 0))
    ∧ (getAtPath resultC2 [0, 0]).map (fun n => (n.objectName, getPropPrim n "x"))
      = some ("n1", some (.pint 1))
    ∧ (getAtPath resultC2 [1]).map (fun n => (n.objectName, getPropPrim n "x"))
      = some ("n2", some (.pint 0))
    ∧ resultC2.children.length = 2 := by
  refine ⟨by decide, by decide, by decide, by decide⟩

/-- C5 (failing input): reconciliation is not frame-preserving on
unmentioned children: nodeC5's only child has class A, the document
docC5 contains only the key B, yet after deserialize the subtree of
the class-A child has changed (its class-B grandchild received
x = 1), because the recursive findChildren search descended into it. -/
theorem c5_unmentioned_child_modified :
    docC5.map (fun e => e.1) = ["B"]
    ∧ nodeC5.children.map (fun c => c.className) = ["A"]
    ∧ (getAtPath nodeC5 [0, 0]).map (fun n => getPropPrim n "x") = some (some (.pint 0))
    ∧ (getAtPath resultC5 [0, 0]).map (fun n => getPropPrim n "x") = some (some (.pint 1)) := by
  refine ⟨by decide, by decide, by decide, by decide⟩

/-- C7 (counterexample): a Map entry under the key QObject that
matches no existing child and has no registered factory constructor
(no factory is passed at all) is not dropped: deserialize attaches a
new plain QObject child and reconciles it (the new child carries
x = 1), contradicting the claim that without a registered constructor
the entry is dropped and nothing else changes. -/
theorem c7_counterexample :
    nodeEmpty.children.length = 0
    ∧ (deserialize nodeEmpty docC7 none).children.map (fun c => c.className) = ["QObject"]
    ∧ (getAtPath (deserialize nodeEmpty docC7 none) [0]).map (fun n => getPropPrim n "x")
        = some (some (.pint 1)) := by
  refine ⟨by decide, by decide, by decide⟩

/-- C7 (amended): for a Map entry whose key matches no existing child,
deserialize consults the creation fallback createChild: when it yields
a child, exactly one new child is appended to the node's children and
recursively reconciled; when it yields none, the entry is dropped and
the node is unchanged.  createChild returns a plain QObject for the
key QObject even with no factory; for any other key it defers to the
factory's registered creator (none when no factory is passed or the
key is unregistered). -/
theorem c7_fallback_creation :
    (∀ (node : Node) (k : String) (m : List (String × QVariant)) (factory : Option Factory)
        (c : Node),
      dsFindExisting node k m = none → createChild k factory = some c →
        dsEntry node k (.vmap m) factory
          = { node with children := node.children ++ [deserialize c m factory] })
    ∧ (∀ (node : Node) (k : String) (m : List (String × QVariant)) (factory : Option Factory),
        dsFindExisting node k m = none → createChild k factory = none →
          dsEntry node k (.vmap m) factory = node)
    ∧ (∀ factory : Option Factory, createChild "QObject" factory = some freshQObject)
    ∧ (∀ k : String, k ≠ "QObject" → createChild k none = none)
    ∧ (∀ (k : String) (f : Factory), k ≠ "QObject" →
        createChild k (some f) = Factory.create f k) := by
  refine ⟨?_, ?_, ?_, ?_, ?_⟩
  · intro node k m factory c h1 h2
    simp [dsEntry, h1, h2]
  · intro node k m factory h1 h2
    simp [dsEntry, h1, h2]
  · intro factory
    rfl
  · intro k hk
    rw [createChild, if_neg (by simpa using hk)]
  · intro k f hk
    rw [createChild, if_neg (by simpa using hk)]
    by_cases h : f.hasCreator k = true
    · simp [h]
    · rw [Bool.not_eq_true] at h
      have := hasCreator_eq_isSome f k
      rw [h] at this
      cases hc : f.create k with
      | none => simp [h]
      | some c =>
        rw [hc] at this
        cases this

/-- C7 (witness): concrete uses of c7_fallback_creation: the created
branch on an empty node with key QObject and no factory, the dropped
branch on an unregistered key, and the createChild characterizations. -/
theorem c7_fallback_creation_witness :
    (dsFindExisting nodeEmpty "QObject" [("x", .prim (.pint 1))] = none
      ∧ createChild "QObject" none = some freshQObject
      ∧ dsEntry nodeEmpty "QObject" (.vmap [("x", .prim (.pint 1))]) none
          = { nodeEmpty with
              children := nodeEmpty.children
                ++ [deserialize freshQObject [("x", .prim (.pint 1))] none] })
    ∧ (dsFindExisting nodeEmpty "Unregistered" [] = none
      ∧ createChild "Unregistered" none = none
      ∧ dsEntry nodeEmpty "Unregistered" (.vmap []) none = nodeEmpty)
    ∧ createChild "Unregistered" none = none
    ∧ createChild "CA" (some factoryC8) = Factory.create factoryC8 "CA" := by
  refine ⟨⟨by decide, rfl,
            c7_fallback_creation.1 nodeEmpty "QObject" [("x", .prim (.pint 1))] none freshQObject
              (by decide) rfl⟩,
          ⟨by decide, rfl,
            c7_fallback_creation.2.1 nodeEmpty "Unregistered" [] none (by decide) rfl⟩,
          c7_fallback_creation.2.2.2.1 "Unregistered" (by decide),
          c7_fallback_creation.2.2.2.2 "CA" factoryC8 (by decide)⟩

/-- C3 (counterexample): a List entry under the key QObject whose only
element is a Map, reconciled with no factory at all, still creates a
child: the consumed node is not factory-created (there is no factory),
contradicting the claim that after the pools are exhausted the child
comes from the factory. -/
theorem c3_counterexample :
    nodeEmpty.children.length = 0
    ∧ (deserialize nodeEmpty docC3 none).children.map (fun c => c.className) = ["QObject"]
    ∧ (getAtPath (deserialize nodeEmpty docC3 none) [0]).map (fun n => getPropPrim n "x")
        = some (some (.pint 1)) := by
  refine ⟨by decide, by decide, by decide⟩

/-- C3 (amended): for a List entry, dsEntry partitions the node's
existing same-type-tag children into the named pool and the unnamed
pool (characterized below) and processes the elements left to right: a
Map element consumes the named-pool child whose current objectName
matches its declared name, else the first unnamed-pool child in pool
order, else a child from the creation fallback (the factory, or the
built-in QObject constructor for the key QObject), the element being
dropped when no child can be created; a Scalar element is written as
attribute key on the node, last successful write winning; the
processing never removes or reorders existing children (positions are
updated in place, new children only appended), consumes at most one
pool child per Map element, and leaves every unconsumed child
untouched. -/
theorem c3_list_reconciliation :
    (∀ (node : Node) (k : String) (items : List QVariant) (factory : Option Factory),
      dsEntry node k (.vlist items) factory
        = dsList node k items (poolIndices node k true) (poolIndices node k false) factory)
    ∧ (∀ (node : Node) (k : String) (wantNamed : Bool) (i : Nat),
        i ∈ poolIndices node k wantNamed
          ↔ i < node.children.length
            ∧ ∃ c, node.children.get? i = some c
                ∧ (c.className == k) = true
                ∧ (if wantNamed then c.objectName != "" else c.objectName == "") = true)
    ∧ (∀ (node : Node) (k : String) (p : Prim) (rest : List QVariant) (np up : List Nat)
        (f : Option Factory),
        dsList node k (.prim p :: rest) np up f
          = dsList (setProperty node k (.prim p)) k rest np up f)
    ∧ (∀ (node : Node) (k : String) (v1 v2 : QVariant),
        k ≠ "objectName" → node.staticProps.find? (fun q => q.name == k) = none →
        readProperty (setProperty (setProperty node k v1) k v2) k = v2)
    ∧ (∀ (node : Node) (k : String) (m : List (String × QVariant)) (rest : List QVariant)
        (np up : List Nat) (f : Option Factory) (i : Nat) (c : Node),
        pickNamed node m np = some i → node.children.get? i = some c →
        dsList node k (.vmap m :: rest) np up f
          = dsList { node with children := node.children.set i (deserialize c m f) } k rest
              (np.erase i) up f)
    ∧ (∀ (node : Node) (k : String) (m : List (String × QVariant)) (rest : List QVariant)
        (np : List Nat) (i : Nat) (up' : List Nat) (f : Option Factory) (c : Node),
        pickNamed node m np = none → node.children.get? i = some c →
        dsList node k (.vmap m :: rest) np (i :: up') f
          = dsList { node with children := node.children.set i (deserialize c m f) } k rest
              np up' f)
    ∧ (∀ (node : Node) (k : String) (m : List (String × QVariant)) (rest : List QVariant)
        (np : List Nat) (f : Option Factory) (child : Node),
        pickNamed node m np = none → createChild k f = some child →
        dsList node k (.vmap m :: rest) np [] f
          = dsList { node with children := node.children ++ [deserialize child m f] } k rest
              np [] f)
    ∧ (∀ (node : Node) (k : String) (items : List QVariant) (np up : List Nat)
        (f : Option Factory),
        ∃ consumed : List Nat,
          (∀ i ∈ consumed, i ∈ np ∨ i ∈ up)
          ∧ consumed.length ≤ (items.filter (fun v => isVmap v)).length
          ∧ node.children.length ≤ (dsList node k items np up f).children.length
          ∧ ∀ i, i < node.children.length → i ∉ consumed →
              (dsList node k items np up f).children.get? i = node.children.get? i) := by
  refine ⟨?_, ?_, ?_, ?_, ?_, ?_, ?_, ?_⟩
  · intro node k items factory
    rfl
  · exact poolIndices_mem
  · intro node k p rest np up f
    rfl
  · exact setProperty_twice_read
  · intro node k m rest np up f i c h1 h2
    simp only [dsList, h1, h2]
  · intro node k m rest np i up' f c h1 h2
    simp only [dsList, h1, h2]
  · intro node k m rest np f child h1 h2
    simp only [dsList, h1, h2]
  · intro node k items np up f
    exact dsList_frame k f items node np up

/-- C3 (witness): concrete uses of c3_list_reconciliation: the
partition equation and pool characterization on nodeC2, the scalar
step and last-write-wins on a dynamic attribute, the three consumption
cases on concrete pools, and the frame property on docC3's list. -/
theorem c3_list_reconciliation_witness :
    dsEntry nodeC2 "B" (.vlist [.prim (.pint 1)]) none
      = dsList nodeC2 "B" [.prim (.pint 1)] (poolIndices nodeC2 "B" true)
          (poolIndices nodeC2 "B" false) none
    ∧ (1 ∈ poolIndices nodeC2 "B" true
        ↔ 1 < nodeC2.children.length
          ∧ ∃ c, nodeC2.children.get? 1 = some c
              ∧ (c.className == "B") = true
              ∧ (if true then c.objectName != "" else c.objectName == "") = true)
    ∧ dsList nodeEmpty "y" [.prim (.pint 1)] [] [] none
        = dsList (setProperty nodeEmpty "y" (.prim (.pint 1))) "y" [] [] [] none
    ∧ readProperty
        (setProperty (setProperty nodeEmpty "y" (.prim (.pint 1))) "y" (.prim (.pint 2))) "y"
        = .prim (.pint 2)
    ∧ dsList nodeC2 "B" [.vmap [("objectName", .prim (.pstr "n2"))]] [1] [] none
        = dsList { nodeC2 with
            children := nodeC2.children.set 1
              (deserialize (bNode "n2" 0) [("objectName", .prim (.pstr "n2"))] none) } "B" []
            ([1].erase 1) [] none
    ∧ dsList nodeC2 "B" [.vmap []] [] [1] none
        = dsList { nodeC2 with
            children := nodeC2.children.set 1 (deserialize (bNode "n2" 0) [] none) } "B" []
            [] [] none
    ∧ dsList nodeEmpty "QObject" [.vmap []] [] [] none
        = dsList { nodeEmpty with
            children := nodeEmpty.children ++ [deserialize freshQObject [] none] } "QObject" []
            [] [] none
    ∧ ∃ consumed : List Nat,
        (∀ i ∈ consumed, i ∈ [0] ∨ i ∈ [1])
        ∧ consumed.length
            ≤ (([.vmap [], .prim (.pint 5)] : List QVariant).filter (fun v => isVmap v)).length
        ∧ nodeC2.children.length
            ≤ (dsList nodeC2 "B" [.vmap [], .prim (.pint 5)] [0] [1] none).children.length
        ∧ ∀ i, i < nodeC2.children.length → i ∉ consumed →
            (dsList nodeC2 "B" [.vmap [], .prim (.pint 5)] [0] [1] none).children.get? i
              = nodeC2.children.get? i := by
  refine ⟨c3_list_reconciliation.1 nodeC2 "B" [.prim (.pint 1)] none,
          c3_list_reconciliation.2.1 nodeC2 "B" true 1,
          c3_list_reconciliation.2.2.1 nodeEmpty "y" (.pint 1) [] [] [] none,
          c3_list_reconciliation.2.2.2.1 nodeEmpty "y" (.prim (.pint 1)) (.prim (.pint 2))
            (by decide) (by decide),
          c3_list_reconciliation.2.2.2.2.1 nodeC2 "B" [("objectName", .prim (.pstr "n2"))] []
            [1] [] none 1 (bNode "n2" 0) (by decide) rfl,
          c3_list_reconciliation.2.2.2.2.2.1 nodeC2 "B" [] [] [] 1 [] none (bNode "n2" 0)
            (by decide) rfl,
          c3_list_reconciliation.2.2.2.2.2.2.1 nodeEmpty "QObject" [] [] [] none freshQObject
            (by decide) rfl,
          c3_list_reconciliation.2.2.2.2.2.2.2 nodeC2 "B" [.vmap [], .prim (.pint 5)] [0] [1]
            none⟩

/-- C8 (counterexample): the document map is not insertion-ordered:
docC8 was built by the QMap subscript assignments in the order CB then
CA, yet its entries read back in ascending key order CA, CB, and
deserialize creates the children in that order, not in insertion
order. -/
theorem c8_counterexample :
    docC8 = mapInsert (mapInsert [] "CB" (.vmap [])) "CA" (.vmap [])
    ∧ docC8.map (fun e => e.1) = ["CA", "CB"]
    ∧ docC8.map (fun e => e.1) ≠ ["CB", "CA"]
    ∧ (deserialize nodeEmpty docC8 (some factoryC8)).children.map (fun c => c.className)
        = ["CA", "CB"] := by
  refine ⟨rfl, by decide, by decide, by decide⟩

/-- C8 (amended): deserialize processes the entries of the document
map in the map's iteration order, one entry after the other; the map
produced by QMap subscript assignment keeps its keys in strictly
ascending QString order (not insertion order), and its keys are
pairwise distinct. -/
theorem c8_sorted_processing :
    (∀ (node : Node) (e : String × QVariant) (rest : List (String × QVariant))
        (factory : Option Factory),
      deserialize node (e :: rest) factory
        = deserialize (dsEntry node e.1 e.2 factory) rest factory)
    ∧ (∀ (m : List (String × QVariant)) (k : String) (v : QVariant),
        mapKeysSorted m → mapKeysSorted (mapInsert m k v))
    ∧ (∀ m : List (String × QVariant),
        mapKeysSorted m → (m.map (fun e => e.1)).Pairwise (fun a b => a ≠ b)) := by
  refine ⟨?_, ?_, ?_⟩
  · intro node e rest factory
    obtain ⟨k, v⟩ := e
    rfl
  · exact mapKeysSorted_mapInsert
  · exact mapKeysSorted_keys_ne

/-- C6: deserialize never aborts on a data-shape problem: an entry
whose scalar cannot be written (read-only property or unassignable
value) leaves the node unchanged; a Map entry matching no child with
no possible creation leaves the node unchanged; a List map element in
the same situation is skipped while the rest of the list is still
processed; and in every case the remaining entries of the document are
still processed (the recursion continues on the rest).  Only the I/O
failure of readJson aborts a whole call, reporting false without
touching the tree. -/
theorem c6_drop_and_continue :
    (∀ (node : Node) (e : String × QVariant) (rest : List (String × QVariant))
        (factory : Option Factory),
      deserialize node (e :: rest) factory
        = deserialize (dsEntry node e.1 e.2 factory) rest factory)
    ∧ (∀ (node : Node) (k : String) (p : Prim) (factory : Option Factory) (spec : PropSpec),
        k ≠ "objectName" →
        node.staticProps.find? (fun q => q.name == k) = some spec →
        (spec.writable && canAssign spec.ptype (.prim p)) = false →
        dsEntry node k (.prim p) factory = node)
    ∧ (∀ (node : Node) (k : String) (m : List (String × QVariant)) (factory : Option Factory),
        dsFindExisting node k m = none → createChild k factory = none →
        dsEntry node k (.vmap m) factory = node)
    ∧ (∀ (node : Node) (k : String) (m : List (String × QVariant)) (rest : List QVariant)
        (np : List Nat) (factory : Option Factory),
        pickNamed node m np = none → createChild k factory = none →
        dsList node k (.vmap m :: rest) np [] factory = dsList node k rest np [] factory)
    ∧ (∀ (obj : Option Node) (factory : Option Factory),
        readJson none obj factory = (false, obj))
    ∧ (∀ (data : List (String × QVariant)) (obj : Option Node) (factory : Option Factory),
        readJson (some data) obj factory = (true, deserializeObject obj data factory)) := by
  refine ⟨?_, ?_, ?_, ?_, ?_, ?_⟩
  · intro node e rest factory
    obtain ⟨k, v⟩ := e
    rfl
  · intro node k p factory spec hk hfind hcond
    have hbe : (k == "objectName") = false := by
      rw [beq_eq_false_iff_ne]
      exact hk
    simp [dsEntry, setProperty, hbe, hfind, hcond]
  · intro node k m factory h1 h2
    simp [dsEntry, h1, h2]
  · intro node k m rest np factory h1 h2
    simp [dsList, h1, h2]
  · intro obj factory
    rfl
  · intro data obj factory
    rfl

/-- C6 (witness): concrete uses of c6_drop_and_continue: a read-only
property entry and a mistyped property entry are dropped on nodeC6, an
unmatched unregistered Map entry is dropped, a list map element in the
same situation is skipped, the recursion continues past any entry, and
the readJson equations at a concrete document. -/
theorem c6_drop_and_continue_witness :
    deserialize nodeC6 [("r", .prim (.pint 9)), ("x", .prim (.pint 4))] none
      = deserialize (dsEntry nodeC6 "r" (.prim (.pint 9)) none) [("x", .prim (.pint 4))] none
    ∧ dsEntry nodeC6 "r" (.prim (.pint 9)) none = nodeC6
    ∧ dsEntry nodeC6 "x" (.prim (.pstr "oops")) none = nodeC6
    ∧ dsEntry nodeC6 "Unregistered" (.vmap []) none = nodeC6
    ∧ dsList nodeC6 "Unregistered" [.vmap [], .prim (.pint 7)] [] [] none
        = dsList nodeC6 "Unregistered" [.prim (.pint 7)] [] [] none
    ∧ readJson none (some nodeC6) none = (false, some nodeC6)
    ∧ readJson (some [("x", .prim (.pint 4))]) (some nodeC6) none
        = (true, deserializeObject (some nodeC6) [("x", .prim (.pint 4))] none) := by
  refine ⟨c6_drop_and_continue.1 nodeC6 ("r", .prim (.pint 9)) [("x", .prim (.pint 4))] none,
          c6_drop_and_continue.2.1 nodeC6 "r" (.pint 9) none specR (by decide) (by decide)
            (by decide),
          c6_drop_and_continue.2.1 nodeC6 "x" (.pstr "oops") none specX (by decide) (by decide)
            (by decide),
          c6_drop_and_continue.2.2.1 nodeC6 "Unregistered" [] none (by decide) rfl,
          c6_drop_and_continue.2.2.2.1 nodeC6 "Unregistered" [] [.prim (.pint 7)] [] none
            (by decide) rfl,
          c6_drop_and_continue.2.2.2.2.1 (some nodeC6) none,
          c6_drop_and_continue.2.2.2.2.2 [("x", .prim (.pint 4))] (some nodeC6) none⟩

/-- C8 (witness): concrete uses of c8_sorted_processing on docC8. -/
theorem c8_sorted_processing_witness :
    deserialize nodeEmpty docC8 (some factoryC8)
        = deserialize (dsEntry nodeEmpty "CA" (.vmap []) (some factoryC8)) [("CB", .vmap [])]
            (some factoryC8)
    ∧ mapKeysSorted (mapInsert docC8 "CC" (.prim .pnull))
    ∧ (docC8.map (fun e => e.1)).Pairwise (fun a b => a ≠ b) := by
  refine ⟨c8_sorted_processing.1 nodeEmpty ("CA", .vmap []) [("CB", .vmap [])] (some factoryC8),
          c8_sorted_processing.2.1 docC8 "CC" (.prim .pnull) (by unfold mapKeysSorted; decide),
          c8_sorted_processing.2.2 docC8 (by unfold mapKeysSorted; decide)⟩

end QtPS
